import Mathlib

/-!
# Verification of the LineAdmin-Backend account-locking engine

Shallow embedding of `src/services/lockCheckService.js` (both evaluator
variants found in that file) together with the parts of the data model the
lock service reads (`dailyStatsSchema` and the persisted account lock
state).  Instants are modelled as integers counting milliseconds of
business time (UTC+7 wall clock), exactly the scale on which the JS code
compares `Date` values via `getTime()`; a calendar day is represented by
its midnight instant.  JavaScript field reads are tri-state
(`undefined` / `null` / number), which `JsVal` captures, since the
service's deposit checks use strict inequality against `null`.
-/

namespace LockCheck

/-- A JavaScript value read from a document field: the field may be absent
(`undefined`), explicitly `null`, or hold a number. -/
inductive JsVal where
  | undefined : JsVal
  | null : JsVal
  | num : Int → JsVal
deriving DecidableEq, Repr

/-- `true` exactly when the field holds an actual number. -/
def JsVal.isNum : JsVal → Bool
  | .num _ => true
  | _ => false

/-- A daily-activity record (`DailyStats` document) as the lock service
reads it: the four activity counters and the two deposit fields. -/
structure Stats where
  registrationsCount : Nat
  friendsAddedCount : Nat
  groupsCreatedCount : Nat
  messagesSentCount : Nat
  depositCount : JsVal
  depositAmount : JsVal
deriving DecidableEq, Repr

/-- `hasActivity` from `lockCheckService.js`: some counter is positive. -/
def hasActivity (stats : Stats) : Bool :=
  decide (stats.registrationsCount > 0) ||
  decide (stats.friendsAddedCount > 0) ||
  decide (stats.groupsCreatedCount > 0) ||
  decide (stats.messagesSentCount > 0)

/-- `hasDepositData` from `lockCheckService.js`: both deposit fields are
strictly different from `null` (an absent/`undefined` field passes). -/
def hasDepositData (stats : Stats) : Bool :=
  (stats.depositCount != JsVal.null) && (stats.depositAmount != JsVal.null)

/-- The spec's notion of the deposit entry being fully present: both
fields actually hold numbers.  Used to state claims phrased in terms of
"the deposit entry is (fully) present"; it is deliberately distinct from
the code's `hasDepositData`. -/
def depositFullyPresent (stats : Stats) : Bool :=
  stats.depositCount.isNum && stats.depositAmount.isNum

/-- A document conforming to `dailyStatsSchema` (`src/unnamed/part_000`),
which declares only the four counters: both deposit fields read back as
`undefined`. -/
def conformsToDailyStatsSchema (stats : Stats) : Prop :=
  stats.depositCount = JsVal.undefined ∧ stats.depositAmount = JsVal.undefined

instance (stats : Stats) : Decidable (conformsToDailyStatsSchema stats) := by
  unfold conformsToDailyStatsSchema
  infer_instance

/-! ## Time model

Business-time instants in milliseconds.  `new Date(y, m, d)` truncation
to midnight is flooring to a multiple of `msPerDay`; `setHours(h,0,0,0)`
keeps the calendar day and sets the wall-clock hour; `setDate(d ± k)`
shifts by whole days (the business timezone is a fixed offset, so a day
is always `msPerDay` long). -/

def msPerDay : Int := 86400000

def msPerHour : Int := 3600000

/-- Midnight of the calendar day containing instant `t`
(`new Date(getFullYear(), getMonth(), getDate(), 0, 0, 0, 0)`). -/
def startOfDay (t : Int) : Int := msPerDay * Int.fdiv t msPerDay

/-- `setHours(h, 0, 0, 0)` applied to instant `t`. -/
def setHoursMs (t : Int) (h : Int) : Int := startOfDay t + h * msPerHour

/-- Normalisation used by the reconciler: `d.setHours(0,0,0,0)`. -/
def normalizeDate (t : Int) : Int := setHoursMs t 0

/-- The 7-day window ending at `today`, oldest first — the unrolled
`for (let i = 6; i >= 0; i--)` loop building `datesToCheck`. -/
def datesToCheck (today : Int) : List Int :=
  [today - 6 * msPerDay, today - 5 * msPerDay, today - 4 * msPerDay,
   today - 3 * msPerDay, today - 2 * msPerDay, today - 1 * msPerDay, today]

/-! ## Evaluator (rich variant, lines 37–101 of the service)

The per-account record store is the partial application of
`DailyStats.findOne({user, date})` to one account: a map from the exact
`date` key to the record, if any. -/

/-- One element of `activeDates`: the object pushed for "today".  The
`date` ISO string is represented by the day's midnight instant. -/
structure ActiveEntry where
  date : Int
  entryHasActivity : Bool
  entryHasDeposit : Bool
  canSubmitAt : Int
  isSubmittable : Bool
deriving DecidableEq, Repr

/-- Result of the rich evaluator. -/
structure LockResult where
  lockedDates : List Int
  activeDates : List ActiveEntry
deriving DecidableEq, Repr

/-- The body of the rich evaluator's `for (const checkDate of datesToCheck)`
loop, processing the days in order and collecting `lockedDates` and
`activeDates`. -/
def checkDates (store : Int → Option Stats) (bangkokNow latestDate : Int) :
    List Int → List Int × List ActiveEntry
  | [] => ([], [])
  | checkDate :: rest =>
    let r := checkDates store bangkokNow latestDate rest
    match store checkDate with
    | none => r
    | some stats =>
      if !hasActivity stats || hasDepositData stats then r
      else if checkDate == latestDate then
        let submitTime := setHoursMs checkDate 23
        (r.1, { date := checkDate
                entryHasActivity := true
                entryHasDeposit := false
                canSubmitAt := submitTime
                isSubmittable := decide (bangkokNow ≥ submitTime) } :: r.2)
      else
        let deadline := setHoursMs (checkDate + msPerDay) 12
        if decide (bangkokNow ≥ deadline) then (checkDate :: r.1, r.2) else r

/-- `checkUserLockStatus` (rich variant): evaluate the 7-day window at
business-time instant `bangkokNow` against the account's record store. -/
def checkUserLockStatus (store : Int → Option Stats) (bangkokNow : Int) : LockResult :=
  let today := startOfDay bangkokNow
  let dates := datesToCheck today
  let latestDate := dates.getLastD 0
  let r := checkDates store bangkokNow latestDate dates
  { lockedDates := r.1, activeDates := r.2 }

/-! ## Evaluator (locked-only variant, lines 270–326 of the service) -/

/-- `checkUserLockStatus` (locked-only variant): computes `lockedDates`
for every day of the window past its deadline with activity and no
deposit data, then filters out the latest day. -/
def checkUserLockStatusLockedOnly (store : Int → Option Stats) (bangkokNow : Int) :
    List Int :=
  let today := startOfDay bangkokNow
  let dates := datesToCheck today
  let latestDate := dates.getLastD 0
  let lockedDates := dates.filter (fun checkDate =>
    let endTime := setHoursMs (checkDate + msPerDay) 12
    let isPastDeadline := decide (bangkokNow ≥ endTime)
    match store checkDate with
    | none => false
    | some stats => isPastDeadline && hasActivity stats && !hasDepositData stats)
  lockedDates.filter (fun d => d != latestDate)

/-! ## Reconciler (`updateUserLockedDates`, rich variant, lines 106–199) -/

/-- The account's persisted lock state (subset of the `User` document the
reconciler touches). -/
structure UserDoc where
  lockedDates : List Int
  activeDates : List ActiveEntry
deriving DecidableEq, Repr

/-- The reconciler's `datesToAdd` (lines 136–140): newly computed
normalized days not already present among the normalized persisted
days. -/
def datesToAddOf (normalizedNewDates normalizedExistingDates : List Int) : List Int :=
  normalizedNewDates.filter (fun newDate =>
    !(normalizedExistingDates.any (fun existingDate => existingDate == newDate)))

/-- `stats && hasDepositData(stats)` for the record at day `d` (line 154). -/
def depositCheck (store : Int → Option Stats) (d : Int) : Bool :=
  match store d with
  | some stats => hasDepositData stats
  | none => false

/-- The reconciler's `datesToRemove` loop (lines 142–158): persisted
normalized days absent from the new set whose record passes
`hasDepositData`. -/
def datesToRemoveOf (store : Int → Option Stats)
    (normalizedNewDates normalizedExistingDates : List Int) : List Int :=
  normalizedExistingDates.filter (fun existingDate =>
    !(normalizedNewDates.any (fun newDate => newDate == existingDate)) &&
    depositCheck store existingDate)

/-- Whether the lock-set part of the reconciler made a change
(`datesToAdd.length > 0 || datesToRemove.length > 0`, line 162). -/
def lockChangedOf (store : Int → Option Stats) (user : UserDoc) (lockResult : LockResult) :
    Bool :=
  decide ((datesToAddOf (lockResult.lockedDates.map normalizeDate)
            (user.lockedDates.map normalizeDate)).length > 0) ||
  decide ((datesToRemoveOf store (lockResult.lockedDates.map normalizeDate)
            (user.lockedDates.map normalizeDate)).length > 0)

/-- The persisted `lockedDates` list after the reconciler's update branch
(lines 162–173): when a change was detected, drop the removed days and
append the added ones; otherwise leave the list untouched. -/
def updatedLockedDates (store : Int → Option Stats) (user : UserDoc)
    (lockResult : LockResult) : List Int :=
  let normalizedNewDates := lockResult.lockedDates.map normalizeDate
  let normalizedExistingDates := user.lockedDates.map normalizeDate
  let datesToRemove := datesToRemoveOf store normalizedNewDates normalizedExistingDates
  if lockChangedOf store user lockResult then
    (user.lockedDates.filter (fun d =>
      !(datesToRemove.any (fun removeDate => removeDate == normalizeDate d)))) ++
    datesToAddOf normalizedNewDates normalizedExistingDates
  else user.lockedDates

/-- `JSON.stringify(user.activeDates) !== JSON.stringify(newActiveDates)`
(line 185): structural inequality of the active lists. -/
def activeChangedOf (user : UserDoc) (lockResult : LockResult) : Bool :=
  user.activeDates != lockResult.activeDates

/-- `updateUserLockedDates` (lines 106–199) for an account that was found,
with a pure record store: returns the account state after the call
together with whether `user.save()` was invoked (`hasChanges`). -/
def updateUserLockedDates (store : Int → Option Stats) (user : UserDoc)
    (lockResult : LockResult) : UserDoc × Bool :=
  ({ lockedDates := updatedLockedDates store user lockResult
     activeDates :=
       if activeChangedOf user lockResult then lockResult.activeDates
       else user.activeDates },
   lockChangedOf store user lockResult || activeChangedOf user lockResult)

/-! ## Fallible store model

The JS functions wrap everything in `try { … } catch`.  To reason about
throwing store operations we re-embed them over a store whose lookups may
fail (`Except String`), with the `catch` blocks made explicit. -/

/-- The evaluator's loop with fallible record lookups: the first throwing
`DailyStats.findOne` aborts the loop with that error. -/
def checkDatesE (store : Int → Except String (Option Stats)) (bangkokNow latestDate : Int) :
    List Int → Except String (List Int × List ActiveEntry)
  | [] => Except.ok ([], [])
  | checkDate :: rest => do
    let stats? ← store checkDate
    let r ← checkDatesE store bangkokNow latestDate rest
    match stats? with
    | none => pure r
    | some stats =>
      if !hasActivity stats || hasDepositData stats then pure r
      else if checkDate == latestDate then
        let submitTime := setHoursMs checkDate 23
        pure (r.1, { date := checkDate
                     entryHasActivity := true
                     entryHasDeposit := false
                     canSubmitAt := submitTime
                     isSubmittable := decide (bangkokNow ≥ submitTime) } :: r.2)
      else
        let deadline := setHoursMs (checkDate + msPerDay) 12
        if decide (bangkokNow ≥ deadline) then pure (checkDate :: r.1, r.2) else pure r

/-- `checkUserLockStatus` with the `catch` block explicit: a store error
anywhere in the loop yields empty results instead of propagating. -/
def checkUserLockStatusE (store : Int → Except String (Option Stats)) (bangkokNow : Int) :
    LockResult :=
  let today := startOfDay bangkokNow
  let dates := datesToCheck today
  let latestDate := dates.getLastD 0
  match checkDatesE store bangkokNow latestDate dates with
  | Except.ok r => { lockedDates := r.1, activeDates := r.2 }
  | Except.error _ => { lockedDates := [], activeDates := [] }

/-- The reconciler's `datesToRemove` loop with fallible record lookups. -/
def datesToRemoveE (store : Int → Except String (Option Stats))
    (normalizedNewDates : List Int) : List Int → Except String (List Int)
  | [] => Except.ok []
  | existingDate :: rest =>
    if normalizedNewDates.any (fun newDate => newDate == existingDate) then
      datesToRemoveE store normalizedNewDates rest
    else do
      let stats? ← store existingDate
      let r ← datesToRemoveE store normalizedNewDates rest
      match stats? with
      | some stats => if hasDepositData stats then pure (existingDate :: r) else pure r
      | none => pure r

/-- `updateUserLockedDates` with its `try`/`catch` and store effects
explicit.  `loadResult` is the outcome of `User.findById`, `saveResult`
the outcome `user.save()` would have on a given document, and `persisted`
the account state currently in the store; the function returns the
persisted state after the call (any caught error leaves it unmodified). -/
def updateUserLockedDatesE (store : Int → Except String (Option Stats))
    (loadResult : Except String (Option UserDoc))
    (saveResult : UserDoc → Except String Unit)
    (lockResult : LockResult) (persisted : Option UserDoc) : Option UserDoc :=
  match loadResult with
  | Except.error _ => persisted
  | Except.ok none => persisted
  | Except.ok (some user) =>
    let newActiveDates := lockResult.activeDates
    let normalizedNewDates := lockResult.lockedDates.map normalizeDate
    let normalizedExistingDates := user.lockedDates.map normalizeDate
    let datesToAdd := datesToAddOf normalizedNewDates normalizedExistingDates
    match datesToRemoveE store normalizedNewDates normalizedExistingDates with
    | Except.error _ => persisted
    | Except.ok datesToRemove =>
      let lockChanged : Bool :=
        decide (datesToAdd.length > 0) || decide (datesToRemove.length > 0)
      let lockedDates1 :=
        if lockChanged then
          (user.lockedDates.filter (fun d =>
            !(datesToRemove.any (fun removeDate => removeDate == normalizeDate d)))) ++ datesToAdd
        else user.lockedDates
      let activeDatesChanged : Bool := user.activeDates != newActiveDates
      let activeDates1 := if activeDatesChanged then newActiveDates else user.activeDates
      let newUser : UserDoc := { lockedDates := lockedDates1, activeDates := activeDates1 }
      if lockChanged || activeDatesChanged then
        match saveResult newUser with
        | Except.ok _ => some newUser
        | Except.error _ => persisted
      else persisted

/-! ## Characterisation of the evaluator loop -/

/-- The condition under which the rich evaluator's loop pushes a day onto
`lockedDates`. -/
def lockDayPred (store : Int → Option Stats) (bangkokNow latestDate checkDate : Int) : Bool :=
  (match store checkDate with
   | none => false
   | some stats => hasActivity stats && !hasDepositData stats) &&
  (checkDate != latestDate) &&
  decide (bangkokNow ≥ setHoursMs (checkDate + msPerDay) 12)

/-- The condition under which the rich evaluator's loop pushes a day onto
`activeDates`. -/
def activeDayPred (store : Int → Option Stats) (latestDate checkDate : Int) : Bool :=
  (match store checkDate with
   | none => false
   | some stats => hasActivity stats && !hasDepositData stats) &&
  (checkDate == latestDate)

/-- The entry the rich evaluator pushes for an active day. -/
def mkActiveEntry (bangkokNow checkDate : Int) : ActiveEntry :=
  { date := checkDate
    entryHasActivity := true
    entryHasDeposit := false
    canSubmitAt := setHoursMs checkDate 23
    isSubmittable := decide (bangkokNow ≥ setHoursMs checkDate 23) }

theorem checkDates_eq (store : Int → Option Stats) (bangkokNow latestDate : Int)
    (ds : List Int) :
    checkDates store bangkokNow latestDate ds =
      (ds.filter (lockDayPred store bangkokNow latestDate),
       (ds.filter (activeDayPred store latestDate)).map (mkActiveEntry bangkokNow)) := by
  induction ds with
  | nil => rfl
  | cons checkDate rest ih =>
    simp only [checkDates, ih, List.filter_cons]
    cases hs : store checkDate with
    | none => simp [lockDayPred, activeDayPred, hs]
    | some stats =>
      cases hact : hasActivity stats with
      | false => simp [lockDayPred, activeDayPred, hs, hact]
      | true =>
        cases hdep : hasDepositData stats with
        | true => simp [lockDayPred, activeDayPred, hs, hact, hdep]
        | false =>
          by_cases htoday : checkDate = latestDate
          · subst htoday
            simp [lockDayPred, activeDayPred, hs, hact, hdep, mkActiveEntry]
          · by_cases hdl : bangkokNow ≥ setHoursMs (checkDate + msPerDay) 12
            · simp [lockDayPred, activeDayPred, hs, hact, hdep, htoday, hdl]
            · simp [lockDayPred, activeDayPred, hs, hact, hdep, htoday, hdl]

theorem checkUserLockStatus_lockedDates (store : Int → Option Stats) (bangkokNow : Int) :
    (checkUserLockStatus store bangkokNow).lockedDates =
      (datesToCheck (startOfDay bangkokNow)).filter
        (lockDayPred store bangkokNow (startOfDay bangkokNow)) := by
  simp [checkUserLockStatus, checkDates_eq, datesToCheck, List.getLastD]

theorem checkUserLockStatus_activeDates (store : Int → Option Stats) (bangkokNow : Int) :
    (checkUserLockStatus store bangkokNow).activeDates =
      ((datesToCheck (startOfDay bangkokNow)).filter
        (activeDayPred store (startOfDay bangkokNow))).map (mkActiveEntry bangkokNow) := by
  simp [checkUserLockStatus, checkDates_eq, datesToCheck, List.getLastD]

/-! ## Time-model lemmas -/

theorem msPerDay_ne_zero : msPerDay ≠ 0 := by decide

theorem startOfDay_dvd (t : Int) : msPerDay ∣ startOfDay t :=
  ⟨Int.fdiv t msPerDay, rfl⟩

theorem normalizeDate_eq_startOfDay (t : Int) : normalizeDate t = startOfDay t := by
  simp [normalizeDate, setHoursMs]

theorem startOfDay_of_dvd {t : Int} (h : msPerDay ∣ t) : startOfDay t = t := by
  obtain ⟨k, rfl⟩ := h
  simp [startOfDay, Int.mul_fdiv_cancel_left _ msPerDay_ne_zero]

theorem normalizeDate_of_dvd {t : Int} (h : msPerDay ∣ t) : normalizeDate t = t := by
  rw [normalizeDate_eq_startOfDay, startOfDay_of_dvd h]

theorem normalizeDate_idem (t : Int) : normalizeDate (normalizeDate t) = normalizeDate t := by
  rw [normalizeDate_eq_startOfDay t, normalizeDate_of_dvd (startOfDay_dvd t)]

theorem normalizeDate_eq_self_of_mem_map {x : Int} {l : List Int}
    (h : x ∈ l.map normalizeDate) : normalizeDate x = x := by
  obtain ⟨y, _, rfl⟩ := List.mem_map.mp h
  exact normalizeDate_idem y

theorem datesToCheck_getLastD (today : Int) : (datesToCheck today).getLastD 0 = today := rfl

theorem dvd_of_mem_datesToCheck {t d : Int} (h : d ∈ datesToCheck (startOfDay t)) :
    msPerDay ∣ d := by
  have hd : msPerDay ∣ startOfDay t := startOfDay_dvd t
  simp only [datesToCheck, List.mem_cons, List.not_mem_nil, or_false] at h
  rcases h with rfl | rfl | rfl | rfl | rfl | rfl | rfl <;>
    first
    | exact hd
    | exact dvd_sub hd (Dvd.dvd.mul_left dvd_rfl _)

theorem mem_datesToCheck_bounds {today d : Int} (h : d ∈ datesToCheck today) :
    today - 6 * msPerDay ≤ d ∧ d ≤ today := by
  simp only [datesToCheck, msPerDay, List.mem_cons, List.not_mem_nil, or_false] at h
  rcases h with rfl | rfl | rfl | rfl | rfl | rfl | rfl <;> simp [msPerDay] <;> omega

/-! ## Agreement of the two evaluator variants -/

theorem checkUserLockStatusLockedOnly_eq (store : Int → Option Stats) (bangkokNow : Int) :
    checkUserLockStatusLockedOnly store bangkokNow =
      (checkUserLockStatus store bangkokNow).lockedDates := by
  rw [checkUserLockStatus_lockedDates]
  simp only [checkUserLockStatusLockedOnly, datesToCheck_getLastD]
  rw [List.filter_filter]
  apply List.filter_congr
  intro d _
  cases hs : store d with
  | none => simp [lockDayPred, hs]
  | some stats =>
    simp only [lockDayPred, hs]
    cases hasActivity stats <;> cases hasDepositData stats <;>
      cases hb : (d != startOfDay bangkokNow) <;>
      cases hdl : decide (bangkokNow ≥ setHoursMs (d + msPerDay) 12) <;>
      simp [hb, hdl]

/-! ## Reconciler lemmas -/

theorem mem_datesToAddOf {normalizedNewDates normalizedExistingDates : List Int} {x : Int} :
    x ∈ datesToAddOf normalizedNewDates normalizedExistingDates ↔
      x ∈ normalizedNewDates ∧ x ∉ normalizedExistingDates := by
  simp only [datesToAddOf, List.mem_filter, Bool.not_eq_true', List.any_eq_false]
  constructor
  · rintro ⟨h1, h2⟩
    exact ⟨h1, fun hx => h2 x hx (beq_self_eq_true x)⟩
  · rintro ⟨h1, h2⟩
    exact ⟨h1, fun y hy e => h2 ((beq_iff_eq.mp e) ▸ hy)⟩

theorem mem_datesToRemoveOf {store : Int → Option Stats}
    {normalizedNewDates normalizedExistingDates : List Int} {x : Int} :
    x ∈ datesToRemoveOf store normalizedNewDates normalizedExistingDates ↔
      x ∈ normalizedExistingDates ∧ x ∉ normalizedNewDates ∧
        depositCheck store x = true := by
  simp only [datesToRemoveOf, List.mem_filter, Bool.and_eq_true, Bool.not_eq_true',
    List.any_eq_false, and_assoc]
  constructor
  · rintro ⟨h1, h2, h3⟩
    exact ⟨h1, fun hx => h2 x hx (beq_self_eq_true x), h3⟩
  · rintro ⟨h1, h2, h3⟩
    exact ⟨h1, fun y hy e => h2 ((beq_iff_eq.mp e) ▸ hy), h3⟩

/-- Day-level effect of one reconciliation on the normalized persisted
locked set: a normalized day is present afterwards iff it was present and
not removed by the deposit-clears-lock rule, or it is a newly computed
day that was absent. -/
theorem mem_updatedLockedDates (store : Int → Option Stats) (user : UserDoc)
    (r : LockResult) (d : Int) :
    d ∈ (updatedLockedDates store user r).map normalizeDate ↔
      ((d ∈ user.lockedDates.map normalizeDate ∧
         (d ∈ r.lockedDates.map normalizeDate ∨ depositCheck store d = false)) ∨
       (d ∈ r.lockedDates.map normalizeDate ∧ d ∉ user.lockedDates.map normalizeDate)) := by
  have hAdd : ∀ x : Int,
      x ∈ (datesToAddOf (r.lockedDates.map normalizeDate)
            (user.lockedDates.map normalizeDate)).map normalizeDate ↔
        (x ∈ r.lockedDates.map normalizeDate ∧ x ∉ user.lockedDates.map normalizeDate) := by
    intro x
    constructor
    · intro hx
      obtain ⟨y, hy, rfl⟩ := List.mem_map.mp hx
      have hmem := mem_datesToAddOf.mp hy
      rw [normalizeDate_eq_self_of_mem_map hmem.1]
      exact hmem
    · intro hx
      exact List.mem_map.mpr ⟨x, mem_datesToAddOf.mpr hx,
        normalizeDate_eq_self_of_mem_map hx.1⟩
  unfold updatedLockedDates
  by_cases hch : lockChangedOf store user r = true
  · simp only [hch, if_true, List.map_append, List.mem_append]
    have hFil : ∀ x : Int,
        x ∈ (user.lockedDates.filter (fun d0 =>
              !((datesToRemoveOf store (r.lockedDates.map normalizeDate)
                  (user.lockedDates.map normalizeDate)).any
                  (fun removeDate => removeDate == normalizeDate d0)))).map normalizeDate ↔
          (x ∈ user.lockedDates.map normalizeDate ∧
           x ∉ datesToRemoveOf store (r.lockedDates.map normalizeDate)
                (user.lockedDates.map normalizeDate)) := by
      intro x
      constructor
      · intro hx
        obtain ⟨y, hy, rfl⟩ := List.mem_map.mp hx
        obtain ⟨hyl, hpy⟩ := List.mem_filter.mp hy
        refine ⟨List.mem_map.mpr ⟨y, hyl, rfl⟩, ?_⟩
        intro hmem
        simp only [Bool.not_eq_true', List.any_eq_false] at hpy
        have := hpy _ hmem
        simp at this
      · rintro ⟨hxNE, hxnr⟩
        obtain ⟨y, hyl, rfl⟩ := List.mem_map.mp hxNE
        refine List.mem_map.mpr ⟨y, List.mem_filter.mpr ⟨hyl, ?_⟩, rfl⟩
        simp only [Bool.not_eq_true', List.any_eq_false]
        intro z hz e
        exact hxnr ((beq_iff_eq.mp e) ▸ hz)
    rw [hFil d, hAdd d, mem_datesToRemoveOf]
    by_cases h1 : d ∈ user.lockedDates.map normalizeDate <;>
      by_cases h2 : d ∈ r.lockedDates.map normalizeDate <;>
      by_cases h3 : depositCheck store d = true <;>
      simp [h1, h2, h3]
  · have hch' : lockChangedOf store user r = false := by
      cases h : lockChangedOf store user r
      · rfl
      · exact absurd h hch
    have h0 := hch'
    simp only [lockChangedOf, Bool.or_eq_false_iff, decide_eq_false_iff_not, gt_iff_lt,
      not_lt, Nat.le_zero, List.length_eq_zero] at h0
    obtain ⟨hA, hR⟩ := h0
    rw [if_neg hch]
    constructor
    · intro hd
      left
      refine ⟨hd, ?_⟩
      by_cases hdep : depositCheck store d = true
      · by_cases hdn : d ∈ r.lockedDates.map normalizeDate
        · exact Or.inl hdn
        · exfalso
          have : d ∈ datesToRemoveOf store (r.lockedDates.map normalizeDate)
              (user.lockedDates.map normalizeDate) :=
            mem_datesToRemoveOf.mpr ⟨hd, hdn, hdep⟩
          rw [hR] at this
          exact absurd this (List.not_mem_nil d)
      · right
        cases h : depositCheck store d
        · rfl
        · exact absurd h hdep
    · rintro (⟨hd, _⟩ | ⟨hdn, hdne⟩)
      · exact hd
      · exfalso
        have : d ∈ datesToAddOf (r.lockedDates.map normalizeDate)
            (user.lockedDates.map normalizeDate) :=
          mem_datesToAddOf.mpr ⟨hdn, hdne⟩
        rw [hA] at this
        exact absurd this (List.not_mem_nil d)

/-! ## Idempotence of the reconciler -/

theorem datesToAddOf_after_update (store : Int → Option Stats) (user : UserDoc)
    (r : LockResult) :
    datesToAddOf (r.lockedDates.map normalizeDate)
      ((updatedLockedDates store user r).map normalizeDate) = [] := by
  rw [List.eq_nil_iff_forall_not_mem]
  intro x hx
  obtain ⟨hxNN, hxNE1⟩ := mem_datesToAddOf.mp hx
  apply hxNE1
  rw [mem_updatedLockedDates]
  by_cases hNE : x ∈ user.lockedDates.map normalizeDate
  · exact Or.inl ⟨hNE, Or.inl hxNN⟩
  · exact Or.inr ⟨hxNN, hNE⟩

theorem datesToRemoveOf_after_update (store : Int → Option Stats) (user : UserDoc)
    (r : LockResult) :
    datesToRemoveOf store (r.lockedDates.map normalizeDate)
      ((updatedLockedDates store user r).map normalizeDate) = [] := by
  rw [List.eq_nil_iff_forall_not_mem]
  intro x hx
  obtain ⟨hxNE1, hxNN, hdep⟩ := mem_datesToRemoveOf.mp hx
  rcases (mem_updatedLockedDates store user r x).mp hxNE1 with ⟨_, hcase⟩ | ⟨hNN, _⟩
  · rcases hcase with hNN | hdf
    · exact hxNN hNN
    · rw [hdep] at hdf
      exact Bool.noConfusion hdf
  · exact hxNN hNN

theorem lockChangedOf_after_update (store : Int → Option Stats) (user : UserDoc)
    (r : LockResult) :
    lockChangedOf store (updateUserLockedDates store user r).1 r = false := by
  simp only [lockChangedOf, updateUserLockedDates]
  simp [datesToAddOf_after_update, datesToRemoveOf_after_update]

theorem activeChangedOf_after_update (store : Int → Option Stats) (user : UserDoc)
    (r : LockResult) :
    activeChangedOf (updateUserLockedDates store user r).1 r = false := by
  simp only [activeChangedOf, updateUserLockedDates]
  by_cases hac : activeChangedOf user r = true
  · simp only [activeChangedOf] at hac
    rw [if_pos (by simp [hac])]
    exact bne_self_eq_false _
  · have hac' : (user.activeDates != r.activeDates) = false := by
      cases h : activeChangedOf user r
      · simpa [activeChangedOf] using h
      · exact absurd h hac
    rw [if_neg (by simp [hac'])]
    exact hac'

/-- Running the reconciler a second time on its own output, with the same
record store and the same lock result, changes nothing and reports no
save. -/
theorem updateUserLockedDates_twice (store : Int → Option Stats) (user : UserDoc)
    (r : LockResult) :
    updateUserLockedDates store (updateUserLockedDates store user r).1 r =
      ((updateUserLockedDates store user r).1, false) := by
  have hlc := lockChangedOf_after_update store user r
  have hac := activeChangedOf_after_update store user r
  have hld : updatedLockedDates store (updateUserLockedDates store user r).1 r =
      (updateUserLockedDates store user r).1.lockedDates := by
    unfold updatedLockedDates
    rw [if_neg (by simp [hlc])]
  have hdef : updateUserLockedDates store (updateUserLockedDates store user r).1 r =
      ({ lockedDates := updatedLockedDates store (updateUserLockedDates store user r).1 r
         activeDates :=
           if activeChangedOf (updateUserLockedDates store user r).1 r then r.activeDates
           else (updateUserLockedDates store user r).1.activeDates },
       lockChangedOf store (updateUserLockedDates store user r).1 r ||
         activeChangedOf (updateUserLockedDates store user r).1 r) := rfl
  rw [hdef, hld, hlc, hac]
  simp

/-! ## Day-classification lemmas -/

theorem lockDayPred_iff (store : Int → Option Stats) (bangkokNow latest cd : Int) :
    lockDayPred store bangkokNow latest cd = true ↔
      ∃ s, store cd = some s ∧ hasActivity s = true ∧ hasDepositData s = false ∧
        cd ≠ latest ∧ bangkokNow ≥ setHoursMs (cd + msPerDay) 12 := by
  cases hs : store cd with
  | none => simp [lockDayPred, hs]
  | some s => simp [lockDayPred, hs, and_assoc]

theorem activeDayPred_iff (store : Int → Option Stats) (latest cd : Int) :
    activeDayPred store latest cd = true ↔
      ∃ s, store cd = some s ∧ hasActivity s = true ∧ hasDepositData s = false ∧
        cd = latest := by
  cases hs : store cd with
  | none => simp [activeDayPred, hs]
  | some s => simp [activeDayPred, hs, and_assoc]

theorem mem_lockedDates_iff (store : Int → Option Stats) (bangkokNow d : Int) :
    d ∈ (checkUserLockStatus store bangkokNow).lockedDates ↔
      d ∈ datesToCheck (startOfDay bangkokNow) ∧
      ∃ s, store d = some s ∧ hasActivity s = true ∧ hasDepositData s = false ∧
        d ≠ startOfDay bangkokNow ∧
        bangkokNow ≥ setHoursMs (d + msPerDay) 12 := by
  rw [checkUserLockStatus_lockedDates, List.mem_filter, lockDayPred_iff]

theorem mem_activeDates_iff (store : Int → Option Stats) (bangkokNow : Int)
    (e : ActiveEntry) :
    e ∈ (checkUserLockStatus store bangkokNow).activeDates ↔
      ∃ cd, cd ∈ datesToCheck (startOfDay bangkokNow) ∧
        activeDayPred store (startOfDay bangkokNow) cd = true ∧
        e = mkActiveEntry bangkokNow cd := by
  rw [checkUserLockStatus_activeDates]
  constructor
  · intro he
    obtain ⟨cd, hcd, rfl⟩ := List.mem_map.mp he
    obtain ⟨h1, h2⟩ := List.mem_filter.mp hcd
    exact ⟨cd, h1, h2, rfl⟩
  · rintro ⟨cd, h1, h2, rfl⟩
    exact List.mem_map.mpr ⟨cd, List.mem_filter.mpr ⟨h1, h2⟩, rfl⟩

theorem mem_datesToCheck_of_coeff {today j : Int} (h0 : 0 ≤ j) (h6 : j ≤ 6) :
    today - j * msPerDay ∈ datesToCheck today := by
  interval_cases j <;> simp [datesToCheck]

/-- A single reconciliation never drops a persisted normalized day whose
record is missing or fails `hasDepositData`. -/
theorem locked_day_preserved (store : Int → Option Stats) (user : UserDoc)
    (r : LockResult) (d : Int) (hdep : depositCheck store d = false)
    (h : d ∈ user.lockedDates.map normalizeDate) :
    d ∈ (updateUserLockedDates store user r).1.lockedDates.map normalizeDate :=
  (mem_updatedLockedDates store user r d).mpr (Or.inl ⟨h, Or.inr hdep⟩)

/-- Iterated reconciliation passes (any sequence of evaluator outputs,
same store) never drop such a day either. -/
theorem locked_day_preserved_foldl (store : Int → Option Stats) (d : Int)
    (hdep : depositCheck store d = false) (rs : List LockResult) (user : UserDoc)
    (h : d ∈ user.lockedDates.map normalizeDate) :
    d ∈ (rs.foldl (fun u r => (updateUserLockedDates store u r).1) user).lockedDates.map
        normalizeDate := by
  induction rs generalizing user with
  | nil => exact h
  | cons r rest ih =>
    exact ih ((updateUserLockedDates store user r).1)
      (locked_day_preserved store user r d hdep h)

/-! ## Concrete stores used in witnesses and counterexamples -/

/-- A record with activity whose deposit fields are explicitly `null`
(deposit not yet recorded, in the representation the deposit-update route
uses). -/
def statsNullDeposit : Stats :=
  { registrationsCount := 1, friendsAddedCount := 0, groupsCreatedCount := 0
    messagesSentCount := 0, depositCount := JsVal.null, depositAmount := JsVal.null }

/-- Store holding `statsNullDeposit` at day 0 only. -/
def nullDepositStore : Int → Option Stats :=
  fun t => if t = 0 then some statsNullDeposit else none

/-- A record with activity whose deposit fields are absent (`undefined`),
as for any document conforming to `dailyStatsSchema`. -/
def undefinedDepositStats : Stats :=
  { registrationsCount := 1, friendsAddedCount := 0, groupsCreatedCount := 0
    messagesSentCount := 0, depositCount := JsVal.undefined, depositAmount := JsVal.undefined }

/-- Store holding `undefinedDepositStats` at day 0 only. -/
def undefinedDepositStore : Int → Option Stats :=
  fun t => if t = 0 then some undefinedDepositStats else none

/-- A record with activity and a fully recorded deposit entry. -/
def depositedStats : Stats :=
  { registrationsCount := 1, friendsAddedCount := 0, groupsCreatedCount := 0
    messagesSentCount := 0, depositCount := JsVal.num 1, depositAmount := JsVal.num 100 }

/-- Store holding `depositedStats` at day 0 only. -/
def depositedStore : Int → Option Stats :=
  fun t => if t = 0 then some depositedStats else none

/-! ## Claims -/

/-- C8: for the same record store and evaluation time, the locked-date
list of the richer evaluator variant (which also emits active entries) is
element-for-element equal to the list returned by the locked-only
variant. -/
theorem evaluator_variants_lockedDates_agree (store : Int → Option Stats)
    (bangkokNow : Int) :
    checkUserLockStatusLockedOnly store bangkokNow =
      (checkUserLockStatus store bangkokNow).lockedDates :=
  checkUserLockStatusLockedOnly_eq store bangkokNow

/-- C4: running the evaluator-plus-reconciler twice in immediate
succession, with the same record store and at the same evaluation time,
performs no write on the second run (`hasChanges = false`, so no
`user.save`) and leaves `lockedDates` and `activeDates` exactly as after
the first run. -/
theorem reconcile_twice_idempotent (store : Int → Option Stats) (bangkokNow : Int)
    (user : UserDoc) :
    updateUserLockedDates store
        (updateUserLockedDates store user (checkUserLockStatus store bangkokNow)).1
        (checkUserLockStatus store bangkokNow) =
      ((updateUserLockedDates store user (checkUserLockStatus store bangkokNow)).1, false) :=
  updateUserLockedDates_twice store user (checkUserLockStatus store bangkokNow)

/-- C2: the most recent day of the 7-day window ("today") is never an
element of the evaluator's `lockedDates` (either variant), and hence a
pass never adds it to the persisted locked set: if it was absent before
the reconciliation it is absent afterwards. -/
theorem today_never_locked (store : Int → Option Stats) (bangkokNow : Int)
    (user : UserDoc) :
    startOfDay bangkokNow ∉ (checkUserLockStatus store bangkokNow).lockedDates ∧
    startOfDay bangkokNow ∉ checkUserLockStatusLockedOnly store bangkokNow ∧
    (startOfDay bangkokNow ∉ user.lockedDates.map normalizeDate →
      startOfDay bangkokNow ∉
        (updateUserLockedDates store user
          (checkUserLockStatus store bangkokNow)).1.lockedDates.map normalizeDate) := by
  have hnotin : startOfDay bangkokNow ∉ (checkUserLockStatus store bangkokNow).lockedDates := by
    intro h
    obtain ⟨-, s, -, -, -, hne, -⟩ := (mem_lockedDates_iff store bangkokNow _).mp h
    exact hne rfl
  refine ⟨hnotin, ?_, ?_⟩
  · rw [checkUserLockStatusLockedOnly_eq]
    exact hnotin
  · intro hNE hmem
    rcases (mem_updatedLockedDates store user (checkUserLockStatus store bangkokNow)
        (startOfDay bangkokNow)).mp hmem with ⟨hne', -⟩ | ⟨hNN, -⟩
    · exact hNE hne'
    · obtain ⟨y, hy, hny⟩ := List.mem_map.mp hNN
      obtain ⟨hywin, -⟩ := (mem_lockedDates_iff store bangkokNow y).mp hy
      obtain ⟨-, -, -, -, -, hyne, -⟩ := (mem_lockedDates_iff store bangkokNow y).mp hy
      rw [normalizeDate_of_dvd (dvd_of_mem_datesToCheck hywin)] at hny
      exact hyne hny

/-- Witness for C2 at a concrete input: store with an unresolved record
at day 0, evaluated at day-1 noon; today (day 1) is not locked and is not
added to an initially empty persisted set. -/
theorem today_never_locked_witness :
    startOfDay 129600000 ∉ (checkUserLockStatus nullDepositStore 129600000).lockedDates ∧
    startOfDay 129600000 ∉
      (updateUserLockedDates nullDepositStore ⟨[], []⟩
        (checkUserLockStatus nullDepositStore 129600000)).1.lockedDates.map normalizeDate :=
  ⟨(today_never_locked nullDepositStore 129600000 ⟨[], []⟩).1,
   (today_never_locked nullDepositStore 129600000 ⟨[], []⟩).2.2 (by decide)⟩

/-- C10: any record whose deposit fields are absent (`undefined`) — as
for every document conforming to `dailyStatsSchema`, which declares no
`depositCount` or `depositAmount` — is classified by `hasDepositData` as
already having a deposit, because the check is strict inequality against
`null` only. -/
theorem schema_record_counts_as_deposited (stats : Stats)
    (h : conformsToDailyStatsSchema stats) : hasDepositData stats = true := by
  obtain ⟨h1, h2⟩ := h
  simp only [hasDepositData, h1, h2]
  decide

/-- Witness for C10: the concrete schema-conforming record. -/
theorem schema_record_counts_as_deposited_witness :
    conformsToDailyStatsSchema undefinedDepositStats ∧
    hasDepositData undefinedDepositStats = true :=
  ⟨⟨rfl, rfl⟩, schema_record_counts_as_deposited undefinedDepositStats ⟨rfl, rfl⟩⟩

/-- C1 (amended): for a past day of the window (today − j days,
1 ≤ j ≤ 6) whose record exists, has activity, and has `hasDepositData`
false (both deposit fields explicitly `null`), the evaluator locks the
day if and only if the current business-time instant has reached the next
calendar day at 12:00:00; in particular the flip happens at exactly that
instant. -/
theorem past_day_locked_iff_past_deadline (store : Int → Option Stats)
    (bangkokNow j : Int) (stats : Stats) (h1 : 1 ≤ j) (h6 : j ≤ 6)
    (hs : store (startOfDay bangkokNow - j * msPerDay) = some stats)
    (hact : hasActivity stats = true) (hdep : hasDepositData stats = false) :
    (startOfDay bangkokNow - j * msPerDay) ∈
        (checkUserLockStatus store bangkokNow).lockedDates ↔
      bangkokNow ≥ setHoursMs (startOfDay bangkokNow - j * msPerDay + msPerDay) 12 := by
  rw [mem_lockedDates_iff]
  constructor
  · rintro ⟨-, s, -, -, -, -, hge⟩
    exact hge
  · intro hge
    refine ⟨mem_datesToCheck_of_coeff (by omega) h6, stats, hs, hact, hdep, ?_, hge⟩
    intro heq
    rw [sub_eq_self] at heq
    simp only [msPerDay] at heq
    omega

/-- Witness for C1: day 0 has activity and `null` deposit fields; at
exactly day-1 12:00:00.000 the day is locked, one millisecond earlier it
is not. -/
theorem past_day_locked_iff_past_deadline_witness :
    (startOfDay 129600000 - 1 * msPerDay) ∈
        (checkUserLockStatus nullDepositStore 129600000).lockedDates ∧
    (startOfDay 129599999 - 1 * msPerDay) ∉
        (checkUserLockStatus nullDepositStore 129599999).lockedDates :=
  ⟨(past_day_locked_iff_past_deadline nullDepositStore 129600000 1 statsNullDeposit
      (by decide) (by decide) (by decide) (by decide) (by decide)).mpr (by decide),
   fun hmem => absurd
     ((past_day_locked_iff_past_deadline nullDepositStore 129599999 1 statsNullDeposit
        (by decide) (by decide) (by decide) (by decide) (by decide)).mp hmem)
     (by decide)⟩

/-- Counterexample to C1 as stated: a past window day whose record exists,
has activity and has **no deposit entry** (both fields absent/`undefined`,
so `depositFullyPresent` is false); the current instant is past the
(day+1) 12:00 deadline, yet the evaluator does not lock the day — the
"if and only if" fails because `hasDepositData` treats the absent fields
as a recorded deposit. -/
theorem past_day_locked_iff_past_deadline_counterexample :
    undefinedDepositStore (startOfDay 129600000 - 1 * msPerDay) = some undefinedDepositStats ∧
    hasActivity undefinedDepositStats = true ∧
    depositFullyPresent undefinedDepositStats = false ∧
    (129600000 : Int) ≥ setHoursMs (startOfDay 129600000 - 1 * msPerDay + msPerDay) 12 ∧
    (startOfDay 129600000 - 1 * msPerDay) ∉
      (checkUserLockStatus undefinedDepositStore 129600000).lockedDates := by
  decide

/-- Helper for C6: when today's record passes the activity/deposit gate,
the active list is exactly the single entry for today. -/
theorem activeDates_singleton (store : Int → Option Stats) (bangkokNow : Int)
    (stats : Stats) (hs : store (startOfDay bangkokNow) = some stats)
    (hact : hasActivity stats = true) (hdep : hasDepositData stats = false) :
    (checkUserLockStatus store bangkokNow).activeDates =
      [mkActiveEntry bangkokNow (startOfDay bangkokNow)] := by
  rw [checkUserLockStatus_activeDates]
  have hne : ∀ c : Int, c ≠ startOfDay bangkokNow →
      activeDayPred store (startOfDay bangkokNow) c = false := by
    intro c hc
    have hb : (c == startOfDay bangkokNow) = false := beq_eq_false_iff_ne.mpr hc
    cases hsc : store c <;> simp [activeDayPred, hsc, hb]
  have h1 : activeDayPred store (startOfDay bangkokNow) (startOfDay bangkokNow) = true := by
    simp [activeDayPred, hs, hact, hdep]
  have e6 := hne (startOfDay bangkokNow - 6 * msPerDay) (by simp only [msPerDay]; omega)
  have e5 := hne (startOfDay bangkokNow - 5 * msPerDay) (by simp only [msPerDay]; omega)
  have e4 := hne (startOfDay bangkokNow - 4 * msPerDay) (by simp only [msPerDay]; omega)
  have e3 := hne (startOfDay bangkokNow - 3 * msPerDay) (by simp only [msPerDay]; omega)
  have e2 := hne (startOfDay bangkokNow - 2 * msPerDay) (by simp only [msPerDay]; omega)
  have e1 := hne (startOfDay bangkokNow - msPerDay) (by simp only [msPerDay]; omega)
  simp [datesToCheck, e6, e5, e4, e3, e2, e1, h1]

/-- C6 (amended): when today's record exists with activity and
`hasDepositData` false (both deposit fields explicitly `null`), the
evaluator emits exactly one active entry for today, whose `canSubmitAt`
is today at 23:00:00 business time and whose `isSubmittable` is true
exactly when the current instant has reached 23:00:00. -/
theorem today_active_entry (store : Int → Option Stats) (bangkokNow : Int)
    (stats : Stats) (hs : store (startOfDay bangkokNow) = some stats)
    (hact : hasActivity stats = true) (hdep : hasDepositData stats = false) :
    (checkUserLockStatus store bangkokNow).activeDates =
      [mkActiveEntry bangkokNow (startOfDay bangkokNow)] ∧
    (mkActiveEntry bangkokNow (startOfDay bangkokNow)).canSubmitAt =
      setHoursMs (startOfDay bangkokNow) 23 ∧
    ((mkActiveEntry bangkokNow (startOfDay bangkokNow)).isSubmittable = true ↔
      bangkokNow ≥ setHoursMs (startOfDay bangkokNow) 23) := by
  refine ⟨activeDates_singleton store bangkokNow stats hs hact hdep, rfl, ?_⟩
  simp [mkActiveEntry]

/-- Witness for C6: at exactly 23:00:00.000 of day 0 the single active
entry is submittable; one millisecond earlier it is not. -/
theorem today_active_entry_witness :
    (checkUserLockStatus nullDepositStore 82800000).activeDates =
      [mkActiveEntry 82800000 (startOfDay 82800000)] ∧
    (mkActiveEntry 82800000 (startOfDay 82800000)).isSubmittable = true ∧
    (checkUserLockStatus nullDepositStore 82799999).activeDates =
      [mkActiveEntry 82799999 (startOfDay 82799999)] ∧
    (mkActiveEntry 82799999 (startOfDay 82799999)).isSubmittable = false :=
  ⟨(today_active_entry nullDepositStore 82800000 statsNullDeposit (by decide) (by decide)
      (by decide)).1,
   by decide,
   (today_active_entry nullDepositStore 82799999 statsNullDeposit (by decide) (by decide)
      (by decide)).1,
   by decide⟩

/-- Counterexample to C6 as stated: today's record has activity and no
deposit entry (fields absent/`undefined`), yet the evaluator emits no
active entry at all, because `hasDepositData` classifies the record as
already deposited. -/
theorem today_active_entry_counterexample :
    undefinedDepositStore (startOfDay 82800000) = some undefinedDepositStats ∧
    hasActivity undefinedDepositStats = true ∧
    depositFullyPresent undefinedDepositStats = false ∧
    (checkUserLockStatus undefinedDepositStore 82800000).activeDates = [] := by
  decide

/-- C7 (amended): a day whose record is missing, or has all four counters
zero, or passes `hasDepositData`, is classified neither locked nor
active; and `hasDepositData` is true iff both deposit fields differ from
`null` — full presence of the deposit entry implies `hasDepositData`,
but not conversely (absent fields also pass). -/
theorem day_skipped_conditions (store : Int → Option Stats) (bangkokNow d : Int)
    (hskip : store d = none ∨
      ∃ s, store d = some s ∧ (hasActivity s = false ∨ hasDepositData s = true)) :
    (d ∉ (checkUserLockStatus store bangkokNow).lockedDates ∧
     ∀ e ∈ (checkUserLockStatus store bangkokNow).activeDates, e.date ≠ d) ∧
    (∀ s : Stats, hasDepositData s = true ↔
      (s.depositCount ≠ JsVal.null ∧ s.depositAmount ≠ JsVal.null)) ∧
    (∀ s : Stats, depositFullyPresent s = true → hasDepositData s = true) := by
  have hgate : ∀ s : Stats, store d = some s → hasActivity s = true →
      hasDepositData s = false → False := by
    intro s hsd hact hdep
    rcases hskip with hnone | ⟨s', hs', hor⟩
    · rw [hsd] at hnone
      exact Option.noConfusion hnone
    · rw [hsd] at hs'
      obtain rfl := Option.some.injEq .. ▸ hs'
      rcases hor with h | h
      · rw [hact] at h
        exact Bool.noConfusion h
      · rw [hdep] at h
        exact Bool.noConfusion h
  refine ⟨⟨?_, ?_⟩, ?_, ?_⟩
  · intro hmem
    obtain ⟨-, s, hsd, hact, hdep, -, -⟩ := (mem_lockedDates_iff store bangkokNow d).mp hmem
    exact hgate s hsd hact hdep
  · intro e he hed
    obtain ⟨cd, -, hpred, rfl⟩ := (mem_activeDates_iff store bangkokNow e).mp he
    obtain ⟨s, hsd, hact, hdep, -⟩ := (activeDayPred_iff store (startOfDay bangkokNow) cd).mp hpred
    have hcd : cd = d := hed
    rw [hcd] at hsd
    exact hgate s hsd hact hdep
  · intro s
    simp [hasDepositData, Bool.and_eq_true, bne_iff_ne]
  · intro s h
    cases hc : s.depositCount <;> cases ha : s.depositAmount <;>
      simp_all [depositFullyPresent, hasDepositData, JsVal.isNum]

/-- Witness for C7 at a concrete input: a windowed day with no record is
neither locked nor active, and the deposit-field characterisations hold. -/
theorem day_skipped_conditions_witness :
    (((5 : Int) ∉ (checkUserLockStatus nullDepositStore 129600000).lockedDates ∧
      ∀ e ∈ (checkUserLockStatus nullDepositStore 129600000).activeDates, e.date ≠ 5) ∧
     (∀ s : Stats, hasDepositData s = true ↔
       (s.depositCount ≠ JsVal.null ∧ s.depositAmount ≠ JsVal.null)) ∧
     (∀ s : Stats, depositFullyPresent s = true → hasDepositData s = true)) :=
  day_skipped_conditions nullDepositStore 129600000 5 (Or.inl (by decide))

/-- Counterexample to C7 as stated: `hasDepositData` is true on a record
whose deposit entry is not fully present (fields absent/`undefined`), so
"hasDeposit true iff the deposit entry is fully present" fails. -/
theorem hasDepositData_not_fully_present :
    hasDepositData undefinedDepositStats = true ∧
    depositFullyPresent undefinedDepositStats = false := by
  decide

/-- C3 (amended): for a normalized persisted day absent from the newly
computed locked set, one reconciliation removes it iff its record exists
and passes `hasDepositData` (both deposit fields non-`null`; absent
fields also qualify); and a persisted day whose record is missing or
fails `hasDepositData` survives any number of passes. -/
theorem locked_day_removal_rule (store : Int → Option Stats) (user : UserDoc)
    (r : LockResult) (d : Int)
    (hNE : d ∈ user.lockedDates.map normalizeDate)
    (hNN : d ∉ r.lockedDates.map normalizeDate) :
    (d ∉ (updateUserLockedDates store user r).1.lockedDates.map normalizeDate ↔
      depositCheck store d = true) ∧
    (depositCheck store d = false → ∀ rs : List LockResult,
      d ∈ (rs.foldl (fun u r2 => (updateUserLockedDates store u r2).1)
            user).lockedDates.map normalizeDate) := by
  constructor
  · constructor
    · intro hnot
      cases hd : depositCheck store d with
      | false =>
        exact absurd ((mem_updatedLockedDates store user r d).mpr
          (Or.inl ⟨hNE, Or.inr hd⟩)) hnot
      | true => rfl
    · intro hd hmem
      rcases (mem_updatedLockedDates store user r d).mp hmem with ⟨-, hc⟩ | ⟨hn, -⟩
      · rcases hc with hn | hdf
        · exact hNN hn
        · rw [hd] at hdf
          exact Bool.noConfusion hdf
      · exact hNN hn
  · intro hd rs
    exact locked_day_preserved_foldl store d hd rs user hNE

/-- Witness for C3: a persisted locked day 0 whose record now carries a
full deposit entry is removed by the pass; a locked day with no record at
all survives three passes. -/
theorem locked_day_removal_rule_witness :
    ((0 : Int) ∉ (updateUserLockedDates depositedStore ⟨[0], []⟩
        (checkUserLockStatus depositedStore 864000000)).1.lockedDates.map normalizeDate) ∧
    ((0 : Int) ∈ (([⟨[], []⟩, ⟨[], []⟩, ⟨[], []⟩] : List LockResult).foldl
        (fun u r2 => (updateUserLockedDates (fun _ => none) u r2).1)
        ⟨[0], []⟩).lockedDates.map normalizeDate) :=
  ⟨(locked_day_removal_rule depositedStore ⟨[0], []⟩
      (checkUserLockStatus depositedStore 864000000) 0 (by decide) (by decide)).1.mpr
      (by decide),
   (locked_day_removal_rule (fun _ => none) ⟨[0], []⟩ ⟨[], []⟩ 0 (by decide)
      (by decide)).2 (by decide) [⟨[], []⟩, ⟨[], []⟩, ⟨[], []⟩]⟩

/-- Counterexample to C3 as stated: a persisted locked day whose record
exists but shows **no completed deposit entry** (fields absent/`undefined`)
is nevertheless removed by the pass — removal is not equivalent to "record
exists and shows a completed deposit". -/
theorem locked_day_removed_without_deposit :
    (0 : Int) ∈ (UserDoc.mk [0] []).lockedDates.map normalizeDate ∧
    undefinedDepositStore 0 = some undefinedDepositStats ∧
    depositFullyPresent undefinedDepositStats = false ∧
    (0 : Int) ∉ (updateUserLockedDates undefinedDepositStore ⟨[0], []⟩
        (checkUserLockStatus undefinedDepositStore 864000000)).1.lockedDates.map
        normalizeDate := by
  decide

/-- C5 (amended): a calendar day 8+ days before today is never newly
added to the persisted locked set by an evaluate-and-reconcile pass; but
it **can** be removed — precisely, a persisted such day survives the pass
iff its record is missing or fails `hasDepositData`. -/
theorem old_day_frame_rule (store : Int → Option Stats) (bangkokNow : Int)
    (user : UserDoc) (d : Int)
    (hold : d ≤ startOfDay bangkokNow - 7 * msPerDay) :
    (d ∉ user.lockedDates.map normalizeDate →
      d ∉ (updateUserLockedDates store user
          (checkUserLockStatus store bangkokNow)).1.lockedDates.map normalizeDate) ∧
    (d ∈ user.lockedDates.map normalizeDate → depositCheck store d = false →
      d ∈ (updateUserLockedDates store user
          (checkUserLockStatus store bangkokNow)).1.lockedDates.map normalizeDate) := by
  constructor
  · intro hNE hmem
    rcases (mem_updatedLockedDates store user (checkUserLockStatus store bangkokNow) d).mp
        hmem with ⟨h, -⟩ | ⟨hNN, -⟩
    · exact hNE h
    · obtain ⟨y, hy, hny⟩ := List.mem_map.mp hNN
      obtain ⟨hywin, -⟩ := (mem_lockedDates_iff store bangkokNow y).mp hy
      rw [normalizeDate_of_dvd (dvd_of_mem_datesToCheck hywin)] at hny
      obtain ⟨hlow, -⟩ := mem_datesToCheck_bounds hywin
      rw [hny] at hlow
      simp only [msPerDay] at hold hlow
      omega
  · intro h hdep
    exact locked_day_preserved store user (checkUserLockStatus store bangkokNow) d hdep h

/-- Witness for C5: with no records at all, day 0 (ten days old) is
neither spuriously added to an empty set nor removed from a set that
contains it. -/
theorem old_day_frame_rule_witness :
    ((0 : Int) ∉ (updateUserLockedDates (fun _ => none) ⟨[], []⟩
        (checkUserLockStatus (fun _ => none) 864000000)).1.lockedDates.map normalizeDate) ∧
    ((0 : Int) ∈ (updateUserLockedDates (fun _ => none) ⟨[0], []⟩
        (checkUserLockStatus (fun _ => none) 864000000)).1.lockedDates.map normalizeDate) :=
  ⟨(old_day_frame_rule (fun _ => none) 864000000 ⟨[], []⟩ 0 (by decide)).1 (by decide),
   (old_day_frame_rule (fun _ => none) 864000000 ⟨[0], []⟩ 0 (by decide)).2 (by decide)
     (by decide)⟩

/-- Counterexample to C5 as stated: a persisted locked day ten days in
the past whose record carries a deposit entry **is removed** by a single
evaluate-and-reconcile pass, so days outside the window are not immune
from removal. -/
theorem old_locked_day_removed :
    (0 : Int) ≤ startOfDay 864000000 - 7 * msPerDay ∧
    (0 : Int) ∈ (UserDoc.mk [0] []).lockedDates.map normalizeDate ∧
    (0 : Int) ∉ (updateUserLockedDates depositedStore ⟨[0], []⟩
        (checkUserLockStatus depositedStore 864000000)).1.lockedDates.map normalizeDate := by
  decide

/-! ## Error-handling lemmas -/

theorem checkDatesE_ok (store : Int → Except String (Option Stats))
    (pureStore : Int → Option Stats) (hag : ∀ t, store t = Except.ok (pureStore t))
    (bangkokNow latestDate : Int) (ds : List Int) :
    checkDatesE store bangkokNow latestDate ds =
      Except.ok (checkDates pureStore bangkokNow latestDate ds) := by
  induction ds with
  | nil => rfl
  | cons cd rest ih =>
    simp only [checkDatesE, hag cd, ih, checkDates, bind, Except.bind, pure, Except.pure]
    cases pureStore cd with
    | none => rfl
    | some stats =>
      by_cases hskip : (!hasActivity stats || hasDepositData stats) = true
      · simp [hskip]
      · have hskip' : (!hasActivity stats || hasDepositData stats) = false := by
          cases h : (!hasActivity stats || hasDepositData stats)
          · rfl
          · exact absurd h hskip
        simp only [hskip', Bool.false_eq_true, if_false]
        by_cases htoday : (cd == latestDate) = true
        · simp [htoday]
        · have htoday' : (cd == latestDate) = false := by
            cases h : (cd == latestDate)
            · rfl
            · exact absurd h htoday
          simp only [htoday', Bool.false_eq_true, if_false]
          by_cases hdl : decide (bangkokNow ≥ setHoursMs (cd + msPerDay) 12) = true
          · simp [hdl]
          · have hdl' : decide (bangkokNow ≥ setHoursMs (cd + msPerDay) 12) = false := by
              cases h : decide (bangkokNow ≥ setHoursMs (cd + msPerDay) 12)
              · rfl
              · exact absurd h hdl
            simp [hdl']

/-- C9: store failures never escape. If any record lookup throws during
evaluation, `checkUserLockStatus` returns empty results (and when no
lookup throws it agrees with the pure evaluator); during
`updateUserLockedDates`, a throwing account load, a missing account, a
throwing record lookup, or a throwing save all leave the persisted
account state unmodified. -/
theorem store_errors_never_escape (store : Int → Except String (Option Stats))
    (bangkokNow : Int) (loadResult : Except String (Option UserDoc))
    (saveResult : UserDoc → Except String Unit) (lockResult : LockResult)
    (persisted : Option UserDoc) :
    ((∃ e, checkDatesE store bangkokNow
        ((datesToCheck (startOfDay bangkokNow)).getLastD 0)
        (datesToCheck (startOfDay bangkokNow)) = Except.error e) →
      checkUserLockStatusE store bangkokNow = { lockedDates := [], activeDates := [] }) ∧
    (∀ pureStore : Int → Option Stats, (∀ t, store t = Except.ok (pureStore t)) →
      checkUserLockStatusE store bangkokNow = checkUserLockStatus pureStore bangkokNow) ∧
    ((∃ e, loadResult = Except.error e) →
      updateUserLockedDatesE store loadResult saveResult lockResult persisted = persisted) ∧
    (loadResult = Except.ok none →
      updateUserLockedDatesE store loadResult saveResult lockResult persisted = persisted) ∧
    (∀ user, loadResult = Except.ok (some user) →
      (∃ e, datesToRemoveE store (lockResult.lockedDates.map normalizeDate)
        (user.lockedDates.map normalizeDate) = Except.error e) →
      updateUserLockedDatesE store loadResult saveResult lockResult persisted = persisted) ∧
    (∀ user, loadResult = Except.ok (some user) →
      (∀ u, ∃ e, saveResult u = Except.error e) →
      updateUserLockedDatesE store loadResult saveResult lockResult persisted = persisted) := by
  refine ⟨?_, ?_, ?_, ?_, ?_, ?_⟩
  · rintro ⟨e, he⟩
    simp only [checkUserLockStatusE]
    rw [he]
  · intro pureStore hag
    simp only [checkUserLockStatusE, checkUserLockStatus]
    rw [checkDatesE_ok store pureStore hag]
  · rintro ⟨e, he⟩
    simp only [updateUserLockedDatesE, he]
  · intro h
    simp only [updateUserLockedDatesE, h]
  · rintro user hl ⟨e, he⟩
    simp only [updateUserLockedDatesE, hl]
    rw [he]
  · intro user hl hsave
    simp only [updateUserLockedDatesE, hl]
    cases hrm : datesToRemoveE store (lockResult.lockedDates.map normalizeDate)
        (user.lockedDates.map normalizeDate) with
    | error e => rfl
    | ok dr =>
      split
      · rfl
      · split
        · split
          · next val heq =>
            obtain ⟨e, he⟩ := hsave _
            rw [heq] at he
            exact Except.noConfusion he
          · rfl
        · rfl

/-- Witness for C9: a store whose every lookup throws yields empty
evaluator results, and a throwing account load leaves the persisted state
untouched. -/
theorem store_errors_never_escape_witness :
    checkUserLockStatusE (fun _ => Except.error "db") 129600000 =
      { lockedDates := [], activeDates := [] } ∧
    updateUserLockedDatesE (fun _ => Except.error "db") (Except.error "load")
      (fun _ => Except.ok ()) ⟨[0], []⟩ (some ⟨[0], []⟩) = some ⟨[0], []⟩ :=
  ⟨(store_errors_never_escape (fun _ => Except.error "db") 129600000
      (Except.error "load") (fun _ => Except.ok ()) ⟨[0], []⟩ (some ⟨[0], []⟩)).1
      ⟨"db", rfl⟩,
   (store_errors_never_escape (fun _ => Except.error "db") 129600000
      (Except.error "load") (fun _ => Except.ok ()) ⟨[0], []⟩ (some ⟨[0], []⟩)).2.2.1
      ⟨"load", rfl⟩⟩

end LockCheck
